import Mathlib

/-!
Verification of the `moss_hecs` command buffer (`src/command_buffer.rs`) and the
`Bundle` derive macro (`macros/src/bundle.rs`) against the repository
specification.  The arena of raw bytes is modelled as a `List Nat` (one entry
per byte); machine pointers become offsets into that list.  Components are
erased values: a component instance is the pair of its `TypeInfo` and the bytes
it occupies.  Running a drop thunk, consuming a component by moving it into a
frame, and invoking an operation on a frame are all recorded as explicit
events, so that exactly-once resource discipline can be stated and proved.
-/

namespace MossHecs

/-- Modelled from the spec: `TypeInfo` lives in `archetype.rs`, which is not
part of the sources; per the spec it is the erased per-component-type record
holding a process-unique id, a size in bytes, an alignment (a power of two) and
a drop thunk.  The thunk itself carries no data, so it is not a field; running
it is recorded as an event by the operations below. -/
structure TypeInfo where
  id : Nat
  size : Nat
  align : Nat
deriving DecidableEq, Repr

/-- Modelled from the spec: the total order on `TypeInfo` — higher alignment
first, then id ascending. -/
def TypeInfo.le (a b : TypeInfo) : Prop :=
  b.align < a.align ∨ (a.align = b.align ∧ a.id ≤ b.id)

instance : DecidableRel TypeInfo.le := fun a b => by
  unfold TypeInfo.le; infer_instance

instance : IsTotal TypeInfo TypeInfo.le where
  total a b := by unfold TypeInfo.le; omega

instance : IsTrans TypeInfo TypeInfo.le where
  trans a b c := by unfold TypeInfo.le; omega

/-- Modelled from the spec: an entity handle is a 64-bit value carrying a
32-bit id and a 32-bit generation; equality is bitwise. -/
structure Entity where
  id : Nat
  generation : Nat
deriving DecidableEq, Repr

/-- Raw bytes, one `Nat` per byte. -/
abbrev Bytes := List Nat

/-- Mirrors `struct ComponentInfo` of `command_buffer.rs`: the data required to
store a component — its `TypeInfo` and its offset into the arena. -/
structure ComponentInfo where
  ty : TypeInfo
  offset : Nat
deriving DecidableEq, Repr

/-- Ordering used by `sort_unstable_by_key(|c| c.ty)`: compare the `TypeInfo`
of the records. -/
def ComponentInfo.le (a b : ComponentInfo) : Prop := TypeInfo.le a.ty b.ty

instance : DecidableRel ComponentInfo.le := fun a b => by
  unfold ComponentInfo.le; infer_instance

instance : IsTotal ComponentInfo ComponentInfo.le where
  total a b := IsTotal.total (r := TypeInfo.le) a.ty b.ty

instance : IsTrans ComponentInfo ComponentInfo.le where
  trans a b c h h' := IsTrans.trans (r := TypeInfo.le) a.ty b.ty c.ty h h'

/-- Mirrors `enum Cmd` of `command_buffer.rs`.  A `SpawnOrInsert` stores the
optional target entity and the range `start..stop` of its records in
`components`; a `Remove` stores the erased bundle as the list of component ids
its type-specific thunk removes. -/
inductive Cmd where
  | spawnOrInsert (entity : Option Entity) (start stop : Nat)
  | remove (tys : List Nat) (entity : Entity)
  | despawn (entity : Entity)
deriving DecidableEq, Repr

/-- Modelled from the spec: a `Frame` (defined outside these sources) owns the
live entities and their components.  Only the behaviour the command buffer
relies on is modelled: validity of handles, and insert / spawn / remove /
despawn with handle-invalidity reported (and here ignored) rather than fatal. -/
structure Frame where
  entities : List (Entity × List (TypeInfo × Bytes))
  nextId : Nat
deriving DecidableEq, Repr

/-- Modelled from the spec: a handle is contained iff its slot is live. -/
def Frame.contains (fr : Frame) (e : Entity) : Bool :=
  fr.entities.any (fun p => p.1 == e)

/-- Components currently attached to `e` (empty when `e` is not live). -/
def Frame.componentsOf (fr : Frame) (e : Entity) : List (TypeInfo × Bytes) :=
  ((fr.entities.find? (fun p => p.1 == e)).map Prod.snd).getD []

/-- Modelled from the spec: `Frame::insert` adds the bundle's components to a
live entity; on a stale handle it reports an error (here: leaves the frame
unchanged — the command buffer discards the result either way). -/
def Frame.insert (fr : Frame) (e : Entity) (comps : List (TypeInfo × Bytes)) : Frame :=
  { fr with
    entities := fr.entities.map (fun p => if p.1 == e then (p.1, p.2 ++ comps) else p) }

/-- Modelled from the spec: `Frame::spawn` creates a fresh entity holding the
bundle's components. -/
def Frame.spawn (fr : Frame) (comps : List (TypeInfo × Bytes)) : Frame :=
  { entities := fr.entities ++ [(⟨fr.nextId, 0⟩, comps)], nextId := fr.nextId + 1 }

/-- Modelled from the spec: `Frame::despawn` removes a live entity; despawn of
a dead entity reports an error, which the recorded command ignores. -/
def Frame.despawn (fr : Frame) (e : Entity) : Frame :=
  { fr with entities := fr.entities.filter (fun p => !(p.1 == e)) }

/-- Modelled from the spec: `Frame::remove` validates that every removed type
is present on a live entity and then removes exactly those components; the
recorded thunk (`remove_bundle_and_ignore_result`) discards any error. -/
def Frame.removeTys (fr : Frame) (tys : List Nat) (e : Entity) : Frame :=
  if fr.contains e && tys.all (fun t => (fr.componentsOf e).any (fun c => c.1.id == t)) then
    { fr with
      entities := fr.entities.map
        (fun p => if p.1 == e then (p.1, p.2.filter (fun c => !(tys.contains c.1.id))) else p) }
  else fr

/-- Mirrors `struct CommandBuffer`: recorded commands, the byte arena
(`storage` with its layout), the bump cursor, the component records and the
scratch `ids` vector. -/
structure CommandBuffer where
  cmds : List Cmd
  storage : Bytes
  layoutSize : Nat
  layoutAlign : Nat
  cursor : Nat
  components : List ComponentInfo
  ids : List Nat
deriving DecidableEq, Repr

/-- Mirrors `CommandBuffer::new` / `Default`: no commands, a dangling (empty)
arena with layout `from_size_align(0, 8)`, cursor 0. -/
def CommandBuffer.new : CommandBuffer :=
  { cmds := [], storage := [], layoutSize := 0, layoutAlign := 8,
    cursor := 0, components := [], ids := [] }

/-- Modelled from the spec: the crate-root `align` helper (not among the
sources) pads the cursor up to the next multiple of the alignment. -/
def align (x a : Nat) : Nat := (x + a - 1) / a * a

/-- Doubling loop of `next_power_of_two`, made structurally recursive with a
fuel argument; `fuel = n` always suffices, since the power doubles from 1 and
therefore reaches `n` within `n` steps. -/
def nextPow2Go (n : Nat) : Nat → Nat → Nat
  | fuel + 1, power => if power < n then nextPow2Go n fuel (power * 2) else power
  | 0, power => power

/-- Rust's `usize::next_power_of_two`: the smallest power of two that is at
least `n` (and 1 for `n = 0`). -/
def nextPow2 (n : Nat) : Nat := nextPow2Go n n 1

/-- Size chosen by `CommandBuffer::grow`: `min_size.next_power_of_two().max(64)`. -/
def growSize (minSize : Nat) : Nat := max (nextPow2 minSize) 64

/-- Mirrors `CommandBuffer::grow`: allocate `growSize min_size` bytes and copy
the first `cursor` bytes of the old storage into the new allocation; the rest
is uninitialised (modelled as zero). -/
def grow (minSize cursor : Nat) (storage : Bytes) : Bytes :=
  storage.take cursor ++ List.replicate (growSize minSize - cursor) 0

/-- Overwrite `bytes.length` bytes of `storage` starting at `offset`
(`ptr::copy_nonoverlapping` into the arena). -/
def writeBytes (storage : Bytes) (offset : Nat) (bytes : Bytes) : Bytes :=
  storage.take offset ++ bytes ++ storage.drop (offset + bytes.length)

/-- Mirrors `CommandBuffer::add_inner`: pad the cursor to the component's
alignment, grow the arena when the component does not fit or needs a larger
allocation alignment, copy the bytes in, record `(ty, offset)` and advance the
cursor. -/
def CommandBuffer.add_inner (cb : CommandBuffer) (bytes : Bytes) (ty : TypeInfo) :
    CommandBuffer :=
  let offset := align cb.cursor ty.align
  let stop := offset + ty.size
  let cb' :=
    if stop > cb.layoutSize ∨ ty.align > cb.layoutAlign then
      { cb with
        storage := grow stop cb.cursor cb.storage,
        layoutSize := growSize stop,
        layoutAlign := max cb.layoutAlign ty.align }
    else cb
  { cb' with
    storage := writeBytes cb'.storage offset bytes,
    components := cb'.components ++ [⟨ty, offset⟩],
    cursor := stop }

/-- A dynamic bundle, reduced to what its `put` donates: the byte image and
`TypeInfo` of each component, in donation order. -/
abbrev DynBundle := List (Bytes × TypeInfo)

/-- The `components.put(|ptr, ty| self.add_inner(ptr, ty))` step shared by
`insert` and `spawn`. -/
def CommandBuffer.recordBundle (cb : CommandBuffer) (b : DynBundle) : CommandBuffer :=
  b.foldl (fun cb p => cb.add_inner p.1 p.2) cb

/-- Mirrors `CommandBuffer::insert`: record the bundle, sort the freshly added
records by their `TypeInfo`, and push a `SpawnOrInsert` command targeting
`entity`. -/
def CommandBuffer.insert (cb : CommandBuffer) (entity : Entity) (b : DynBundle) :
    CommandBuffer :=
  let first := cb.components.length
  let cb := cb.recordBundle b
  let comps := cb.components.take first ++
    List.insertionSort ComponentInfo.le (cb.components.drop first)
  { cb with
    components := comps,
    cmds := cb.cmds ++ [.spawnOrInsert (some entity) first comps.length] }

/-- Mirrors `CommandBuffer::insert_one`: insert of the one-component bundle. -/
def CommandBuffer.insert_one (cb : CommandBuffer) (entity : Entity)
    (bytes : Bytes) (ty : TypeInfo) : CommandBuffer :=
  cb.insert entity [(bytes, ty)]

/-- Mirrors `CommandBuffer::spawn`: like `insert` but the command carries no
target entity. -/
def CommandBuffer.spawn (cb : CommandBuffer) (b : DynBundle) : CommandBuffer :=
  let first := cb.components.length
  let cb := cb.recordBundle b
  let comps := cb.components.take first ++
    List.insertionSort ComponentInfo.le (cb.components.drop first)
  { cb with
    components := comps,
    cmds := cb.cmds ++ [.spawnOrInsert none first comps.length] }

/-- Mirrors `CommandBuffer::remove`: push a `Remove` command carrying the
erased bundle (its component ids) and the target entity. -/
def CommandBuffer.remove (cb : CommandBuffer) (tys : List Nat) (entity : Entity) :
    CommandBuffer :=
  { cb with cmds := cb.cmds ++ [.remove tys entity] }

/-- Mirrors `CommandBuffer::remove_one`: remove of the one-type bundle. -/
def CommandBuffer.remove_one (cb : CommandBuffer) (ty : TypeInfo) (entity : Entity) :
    CommandBuffer :=
  cb.remove [ty.id] entity

/-- Mirrors `CommandBuffer::despawn`: push a `Despawn` command. -/
def CommandBuffer.despawn (cb : CommandBuffer) (entity : Entity) : CommandBuffer :=
  { cb with cmds := cb.cmds ++ [.despawn entity] }

/-- The component records of the range `start..stop` (`self.components[range]`). -/
def slice (cb : CommandBuffer) (start stop : Nat) : List ComponentInfo :=
  (cb.components.drop start).take (stop - start)

/-- The byte image a component record refers to. -/
def compBytes (cb : CommandBuffer) (c : ComponentInfo) : Bytes :=
  (cb.storage.drop c.offset).take c.ty.size

/-- The erased component values of a recorded range, as `RecordedEntity::put`
donates them: `(TypeInfo, bytes)` in record order. -/
def componentData (cb : CommandBuffer) (start stop : Nat) : List (TypeInfo × Bytes) :=
  (slice cb start stop).map (fun c => (c.ty, compBytes cb c))

/-- An operation invoked on the frame during replay. -/
inductive FrameOp where
  | insertOp (entity : Entity) (comps : List (TypeInfo × Bytes))
  | spawnOp (comps : List (TypeInfo × Bytes))
  | removeOp (tys : List Nat) (entity : Entity)
  | despawnOp (entity : Entity)
deriving DecidableEq, Repr

/-- Outcome of replaying one command in `run_on`'s loop: the updated frame, the
frame operation invoked, and the component records (indices into `components`)
that were consumed by the frame respectively dropped via their `TypeInfo`
thunks by `RecordedEntity`'s `Drop`. -/
structure StepResult where
  frame : Frame
  op : FrameOp
  consumed : List Nat
  dropped : List Nat
deriving DecidableEq, Repr

/-- Replay of one command, mirroring the match in `CommandBuffer::run_on`.  A
`SpawnOrInsert` with a live target (or no target) moves its components into the
frame via `put`; with a dead target `frame.insert` reports an ignored error and
the `RecordedEntity`'s `Drop` runs the drop thunk of every component in the
range. -/
def applyCmd (cb : CommandBuffer) (fr : Frame) : Cmd → StepResult
  | .spawnOrInsert (some e) a b =>
    let comps := componentData cb a b
    if fr.contains e then
      { frame := fr.insert e comps, op := .insertOp e comps,
        consumed := List.range' a (b - a), dropped := [] }
    else
      { frame := fr, op := .insertOp e comps,
        consumed := [], dropped := List.range' a (b - a) }
  | .spawnOrInsert none a b =>
    let comps := componentData cb a b
    { frame := fr.spawn comps, op := .spawnOp comps,
      consumed := List.range' a (b - a), dropped := [] }
  | .remove tys e =>
    { frame := fr.removeTys tys e, op := .removeOp tys e, consumed := [], dropped := [] }
  | .despawn e =>
    { frame := fr.despawn e, op := .despawnOp e, consumed := [], dropped := [] }

/-- The frame operation a command replays to, read off the buffer alone. -/
def cmdOp (cb : CommandBuffer) : Cmd → FrameOp
  | .spawnOrInsert (some e) a b => .insertOp e (componentData cb a b)
  | .spawnOrInsert none a b => .spawnOp (componentData cb a b)
  | .remove tys e => .removeOp tys e
  | .despawn e => .despawnOp e

/-- The replay loop of `run_on`: apply each command in record order, threading
the frame and accumulating the frame operations and the consumed / dropped
component indices. -/
def runCmds (cb : CommandBuffer) (fr : Frame) :
    List Cmd → Frame × List FrameOp × List Nat × List Nat
  | [] => (fr, [], [], [])
  | c :: rest =>
    let s := applyCmd cb fr c
    let r := runCmds cb s.frame rest
    (r.1, s.op :: r.2.1, s.consumed ++ r.2.2.1, s.dropped ++ r.2.2.2)

/-- Mirrors `CommandBuffer::clear`: clear `ids`, reset the cursor, drain
`components` running each record's drop thunk, clear `cmds`.  Returns the new
buffer and the indices of the components whose thunks ran. -/
def CommandBuffer.clear (cb : CommandBuffer) : CommandBuffer × List Nat :=
  ({ cb with ids := [], cursor := 0, components := [], cmds := [] },
   List.range cb.components.length)

/-- Mirrors `impl Drop for CommandBuffer`: `clear` (running the remaining drop
thunks) followed by deallocating the arena.  Returns the indices of the
components whose thunks ran. -/
def CommandBuffer.dropEvents (cb : CommandBuffer) : List Nat := cb.clear.2

/-- Result of `CommandBuffer::run_on`. -/
structure RunResult where
  buffer : CommandBuffer
  frame : Frame
  ops : List FrameOp
  consumed : List Nat
  dropped : List Nat
deriving DecidableEq, Repr

/-- Mirrors `CommandBuffer::run_on`: replay every command in record order, then
wipe the component references so `clear` does not double-free, then `clear`.
The model is total: no command reports an error to the caller and no command
panics — a dead insert target only redirects its components to the drop list. -/
def CommandBuffer.run_on (cb : CommandBuffer) (fr : Frame) : RunResult :=
  let r := runCmds cb fr cb.cmds
  let cb1 := { cb with components := [] }
  let c := cb1.clear
  { buffer := c.1, frame := r.1, ops := r.2.1,
    consumed := r.2.2.1, dropped := r.2.2.2 ++ c.2 }

/-- Mirrors `CommandBuffer::build`: refresh the scratch `ids` vector with the
ids of the range's records and hand out the `RecordedEntity`. -/
def CommandBuffer.build (cb : CommandBuffer) (start stop : Nat) : CommandBuffer :=
  { cb with ids := (slice cb start stop).map (fun c => c.ty.id) }

/-- Mirrors `RecordedEntity`: a range of component records borrowed from the
buffer. -/
structure RecordedEntity where
  start : Nat
  stop : Nat
deriving DecidableEq, Repr

/-- Mirrors `DynamicBundle::with_ids` for `RecordedEntity`: the callback sees
the buffer's `ids` vector as `build` filled it. -/
def RecordedEntity.with_ids (cb : CommandBuffer) (r : RecordedEntity) : List Nat :=
  (cb.build r.start r.stop).ids

/-- Mirrors `DynamicBundle::type_info` for `RecordedEntity`: the `TypeInfo` of
each record in the range. -/
def RecordedEntity.type_info (cb : CommandBuffer) (r : RecordedEntity) : List TypeInfo :=
  (slice cb r.start r.stop).map (fun c => c.ty)

/-- Mirrors the comparator of the derived `with_static_ids`: on the
`(align_of, TypeId)` pairs, compare alignments reversed, then ids. -/
def pairLe (x y : Nat × Nat) : Prop := y.1 < x.1 ∨ (x.1 = y.1 ∧ x.2 ≤ y.2)

instance : DecidableRel pairLe := fun x y => by
  unfold pairLe; infer_instance

instance : IsTotal (Nat × Nat) pairLe where
  total a b := by unfold pairLe; omega

instance : IsTrans (Nat × Nat) pairLe where
  trans a b c := by unfold pairLe; omega

instance : IsAntisymm (Nat × Nat) pairLe where
  antisymm a b h h' := by
    obtain ⟨a1, a2⟩ := a; obtain ⟨b1, b2⟩ := b
    simp only [pairLe] at h h'
    simp only [Prod.mk.injEq]
    omega

/-- The sort inside the derived `with_static_ids`: `tys.sort_unstable_by`
with alignments reversed, then ids ascending. -/
def sort_tys (l : List (Nat × Nat)) : List (Nat × Nat) :=
  List.insertionSort pairLe l

/-- Mirrors the `Bundle::with_static_ids` body generated by
`gen_bundle_impl`: build the `(align_of, TypeId)` pairs of the field types,
sort them, and hand the callback the ids in that order. -/
def with_static_ids (l : List (Nat × Nat)) : List Nat :=
  (sort_tys l).map Prod.snd

/-- The `(align_of::<T>(), TypeId::of::<T>())` pair of a field type. -/
def key (t : TypeInfo) : Nat × Nat := (t.align, t.id)

/-- Mirrors the `Bundle::with_static_type_info` body generated by
`gen_bundle_impl`: sort the field `TypeInfo`s (`info.sort_unstable()`) and hand
them to the callback. -/
def with_static_type_info (tys : List TypeInfo) : List TypeInfo :=
  List.insertionSort TypeInfo.le tys

/-- Mirrors the `Bundle::get` body generated by `gen_bundle_impl`: look up
each field type in declaration order, short-circuiting on the first missing
one with a `MissingComponent` error naming that type, and otherwise read every
field from the pointer the lookup returned. -/
def Bundle.get {V : Type} : List TypeInfo → (TypeInfo → Option V) →
    Except TypeInfo (List V)
  | [], _ => .ok []
  | t :: rest, f =>
    match f t with
    | none => .error t
    | some v =>
      match Bundle.get rest f with
      | .error e => .error e
      | .ok vs => .ok (v :: vs)

/-- A component donated by a real Rust bundle: the byte image has exactly the
type's size, and the alignment is a power of two. -/
def ValidComp (p : Bytes × TypeInfo) : Prop :=
  p.1.length = p.2.size ∧ Nat.isPowerOfTwo p.2.align

/-- Every donated component of the bundle is valid. -/
def ValidBundle (b : DynBundle) : Prop := ∀ p ∈ b, ValidComp p

/-- Command buffers obtainable through the public API. -/
inductive Reachable : CommandBuffer → Prop where
  | new : Reachable CommandBuffer.new
  | insert (cb : CommandBuffer) (e : Entity) (b : DynBundle) :
      ValidBundle b → Reachable cb → Reachable (cb.insert e b)
  | spawn (cb : CommandBuffer) (b : DynBundle) :
      ValidBundle b → Reachable cb → Reachable (cb.spawn b)
  | remove (cb : CommandBuffer) (tys : List Nat) (e : Entity) :
      Reachable cb → Reachable (cb.remove tys e)
  | despawn (cb : CommandBuffer) (e : Entity) :
      Reachable cb → Reachable (cb.despawn e)
  | run (cb : CommandBuffer) (fr : Frame) :
      Reachable cb → Reachable (cb.run_on fr).buffer
  | clear (cb : CommandBuffer) : Reachable cb → Reachable cb.clear.1

/-- The ranges stored in the buffer's `SpawnOrInsert` commands, in record
order. -/
def rangesOf (cmds : List Cmd) : List (Nat × Nat) :=
  cmds.filterMap (fun c => match c with
    | .spawnOrInsert _ a b => some (a, b)
    | _ => none)

/-- Does a list of ranges tile `[lo, hi)` consecutively? -/
def tiles : List (Nat × Nat) → Nat → Nat → Bool
  | [], lo, hi => lo == hi
  | r :: rest, lo, hi => r.1 == lo && decide (r.1 ≤ r.2) && tiles rest r.2 hi

/-- The arena part of the structural invariant: it also holds in the middle of
recording a bundle, between two `add_inner` calls. -/
structure ArenaInv (cb : CommandBuffer) : Prop where
  sizeEq : cb.storage.length = cb.layoutSize
  cursorLe : cb.cursor ≤ cb.layoutSize
  sizeOk : cb.layoutSize = 0 ∨ (Nat.isPowerOfTwo cb.layoutSize ∧ 64 ≤ cb.layoutSize)
  alignPos : 0 < cb.layoutAlign
  comps : ∀ c ∈ cb.components, 0 < c.ty.align ∧ c.offset % c.ty.align = 0 ∧
      c.ty.align ≤ cb.layoutAlign ∧ c.offset + c.ty.size ≤ cb.cursor

/-- The structural invariant every reachable command buffer satisfies. -/
structure Inv (cb : CommandBuffer) extends ArenaInv cb : Prop where
  tiling : tiles (rangesOf cb.cmds) 0 cb.components.length = true
  sortedRanges : ∀ a b, (a, b) ∈ rangesOf cb.cmds →
      List.Sorted ComponentInfo.le (slice cb a b)

/-- Recording never alters previously recorded data: every previously recorded
component keeps its `(TypeInfo, offset)` entry at its index, and every byte of
every previously recorded component is unchanged. -/
def PreservesRecorded (old new : CommandBuffer) : Prop :=
  (∀ i : Nat, i < old.components.length → new.components[i]? = old.components[i]?)
  ∧ (∀ c ∈ old.components, ∀ j : Nat, j < c.ty.size →
      new.storage[c.offset + j]? = old.storage[c.offset + j]?)

/-- Example component type of size 4 and alignment 4. -/
def tyA : TypeInfo := ⟨10, 4, 4⟩

/-- Example component type of size 1 and alignment 1. -/
def tyB : TypeInfo := ⟨11, 1, 1⟩

/-- Example component type of size 8 and alignment 8. -/
def tyC : TypeInfo := ⟨12, 8, 8⟩

/-- Example entity handle that the example frame keeps live. -/
def entLive : Entity := ⟨0, 0⟩

/-- Example entity handle that is dead in the example frame. -/
def entDead : Entity := ⟨1, 0⟩

/-- Example bundle donating a `tyA` and a `tyB` component. -/
def bunAB : DynBundle := [([1, 2, 3, 4], tyA), ([7], tyB)]

/-- Example bundle donating a single `tyC` component. -/
def bunC : DynBundle := [([9, 9, 9, 9, 9, 9, 9, 9], tyC)]

/-- Example buffer: an insert targeting the live handle followed by an insert
targeting the dead one. -/
def cbEx : CommandBuffer :=
  (CommandBuffer.new.insert entLive bunAB).insert entDead bunC

/-- Example frame in which `entLive` is live and `entDead` is not. -/
def frEx : Frame := ⟨[(entLive, [])], 5⟩

/-- Example lookup function that has no component for any type. -/
def lookupNone : TypeInfo → Option Nat := fun _ => none

theorem le_nextPow2Go (n : Nat) (fuel power : Nat) (hpow : 0 < power)
    (hfuel : n ≤ fuel + power) : n ≤ nextPow2Go n fuel power := by
  induction fuel generalizing power with
  | zero =>
    simp only [nextPow2Go]
    omega
  | succ fuel ih =>
    simp only [nextPow2Go]
    split
    · exact ih (power * 2) (by omega) (by omega)
    · omega

theorem le_nextPow2 (n : Nat) : n ≤ nextPow2 n :=
  le_nextPow2Go n n 1 (by omega) (by omega)

theorem nextPow2Go_isPowerOfTwo (n : Nat) (fuel power : Nat)
    (hpow : Nat.isPowerOfTwo power) :
    Nat.isPowerOfTwo (nextPow2Go n fuel power) := by
  induction fuel generalizing power with
  | zero => exact hpow
  | succ fuel ih =>
    simp only [nextPow2Go]
    split
    · exact ih (power * 2) (Nat.mul2_isPowerOfTwo_of_isPowerOfTwo hpow)
    · exact hpow

theorem nextPow2_isPowerOfTwo (n : Nat) : Nat.isPowerOfTwo (nextPow2 n) :=
  nextPow2Go_isPowerOfTwo n n 1 Nat.one_isPowerOfTwo

theorem growSize_isPowerOfTwo (m : Nat) : Nat.isPowerOfTwo (growSize m) := by
  unfold growSize
  rcases Nat.le_total (nextPow2 m) 64 with h | h
  · rw [Nat.max_eq_right h]
    exact ⟨6, rfl⟩
  · rw [Nat.max_eq_left h]
    exact nextPow2_isPowerOfTwo m

theorem le_growSize (m : Nat) : m ≤ growSize m :=
  le_trans (le_nextPow2 m) (le_max_left _ _)

theorem growSize_ge (m : Nat) : 64 ≤ growSize m := le_max_right _ _

theorem le_align (x a : Nat) (ha : 0 < a) : x ≤ align x a := by
  have h := Nat.div_add_mod (x + a - 1) a
  have hm : (x + a - 1) % a < a := Nat.mod_lt _ ha
  have h2 : (x + a - 1) / a * a = a * ((x + a - 1) / a) := Nat.mul_comm _ _
  unfold align
  omega

theorem align_mod (x a : Nat) : align x a % a = 0 := Nat.mul_mod_left _ _

theorem writeBytes_length (s : Bytes) (o : Nat) (b : Bytes)
    (h : o + b.length ≤ s.length) : (writeBytes s o b).length = s.length := by
  simp only [writeBytes, List.length_append, List.length_take, List.length_drop]
  omega

theorem writeBytes_getElem_lt (s : Bytes) (o : Nat) (b : Bytes) (j : Nat)
    (hj : j < o) (ho : o ≤ s.length) : (writeBytes s o b)[j]? = s[j]? := by
  unfold writeBytes
  rw [List.append_assoc,
    List.getElem?_append_left (show j < (List.take o s).length by
      simp only [List.length_take]; omega),
    List.getElem?_take, if_pos hj]

theorem grow_length (m c : Nat) (s : Bytes) (hc : c ≤ s.length)
    (hcm : c ≤ growSize m) : (grow m c s).length = growSize m := by
  simp only [grow, List.length_append, List.length_take, List.length_replicate]
  omega

theorem grow_getElem_lt (m c : Nat) (s : Bytes) (j : Nat) (hj : j < c)
    (hc : c ≤ s.length) : (grow m c s)[j]? = s[j]? := by
  unfold grow
  rw [List.getElem?_append_left, List.getElem?_take, if_pos hj]
  simp only [List.length_take]
  omega

theorem runCmds_ops (cb : CommandBuffer) (fr : Frame) (cmds : List Cmd) :
    (runCmds cb fr cmds).2.1 = cmds.map (cmdOp cb) := by
  induction cmds generalizing fr with
  | nil => rfl
  | cons c rest ih =>
    simp only [runCmds, List.map_cons, ih]
    congr 1
    cases c with
    | spawnOrInsert e a b =>
      cases e with
      | some e' =>
        simp only [applyCmd, cmdOp]
        split <;> rfl
      | none => rfl
    | remove tys e => rfl
    | despawn e => rfl

theorem list_find_insert (ents : List (Entity × List (TypeInfo × Bytes)))
    (e : Entity) (comps : List (TypeInfo × Bytes))
    (h : ents.any (fun p => p.1 == e) = true) :
    (((ents.map (fun p => if p.1 == e then (p.1, p.2 ++ comps) else p)).find?
        (fun p => p.1 == e)).map Prod.snd).getD []
      = ((ents.find? (fun p => p.1 == e)).map Prod.snd).getD [] ++ comps := by
  induction ents with
  | nil => simp at h
  | cons p t ih =>
    by_cases hp : p.1 = e
    · simp [List.find?_cons, hp]
    · have ht : t.any (fun p => p.1 == e) = true := by
        simp only [List.any_cons, Bool.or_eq_true, beq_iff_eq] at h
        rcases h with h | h
        · exact absurd h hp
        · exact h
      simpa [List.find?_cons, hp] using ih ht

theorem componentsOf_insert (fr : Frame) (e : Entity)
    (comps : List (TypeInfo × Bytes)) (h : fr.contains e = true) :
    (fr.insert e comps).componentsOf e = fr.componentsOf e ++ comps :=
  list_find_insert fr.entities e comps h

theorem add_inner_eq_pos (cb : CommandBuffer) (bytes : Bytes) (ty : TypeInfo)
    (h : align cb.cursor ty.align + ty.size > cb.layoutSize ∨
      ty.align > cb.layoutAlign) :
    cb.add_inner bytes ty =
      { cmds := cb.cmds,
        storage := writeBytes
          (grow (align cb.cursor ty.align + ty.size) cb.cursor cb.storage)
          (align cb.cursor ty.align) bytes,
        layoutSize := growSize (align cb.cursor ty.align + ty.size),
        layoutAlign := max cb.layoutAlign ty.align,
        cursor := align cb.cursor ty.align + ty.size,
        components := cb.components ++ [⟨ty, align cb.cursor ty.align⟩],
        ids := cb.ids } := by
  simp only [CommandBuffer.add_inner]
  rw [if_pos h]

theorem add_inner_eq_neg (cb : CommandBuffer) (bytes : Bytes) (ty : TypeInfo)
    (h : ¬(align cb.cursor ty.align + ty.size > cb.layoutSize ∨
      ty.align > cb.layoutAlign)) :
    cb.add_inner bytes ty =
      { cmds := cb.cmds,
        storage := writeBytes cb.storage (align cb.cursor ty.align) bytes,
        layoutSize := cb.layoutSize,
        layoutAlign := cb.layoutAlign,
        cursor := align cb.cursor ty.align + ty.size,
        components := cb.components ++ [⟨ty, align cb.cursor ty.align⟩],
        ids := cb.ids } := by
  simp only [CommandBuffer.add_inner]
  rw [if_neg h]

theorem add_inner_spec (cb : CommandBuffer) (bytes : Bytes) (ty : TypeInfo)
    (hinv : ArenaInv cb) (hv : ValidComp (bytes, ty)) :
    ArenaInv (cb.add_inner bytes ty)
    ∧ (cb.add_inner bytes ty).components =
        cb.components ++ [⟨ty, align cb.cursor ty.align⟩]
    ∧ cb.cursor ≤ (cb.add_inner bytes ty).cursor
    ∧ (cb.add_inner bytes ty).cmds = cb.cmds
    ∧ (cb.add_inner bytes ty).ids = cb.ids
    ∧ cb.layoutAlign ≤ (cb.add_inner bytes ty).layoutAlign
    ∧ (∀ j, j < cb.cursor → (cb.add_inner bytes ty).storage[j]? = cb.storage[j]?) := by
  have hlen : bytes.length = ty.size := hv.1
  have hpow : Nat.isPowerOfTwo ty.align := hv.2
  have hapos : 0 < ty.align := Nat.pos_of_isPowerOfTwo hpow
  have hcur_o : cb.cursor ≤ align cb.cursor ty.align := le_align _ _ hapos
  have hcur_len : cb.cursor ≤ cb.storage.length := by
    rw [hinv.sizeEq]; exact hinv.cursorLe
  by_cases hg : align cb.cursor ty.align + ty.size > cb.layoutSize ∨
      ty.align > cb.layoutAlign
  · rw [add_inner_eq_pos cb bytes ty hg]
    have hstg : align cb.cursor ty.align + ty.size ≤
        growSize (align cb.cursor ty.align + ty.size) := le_growSize _
    have hgl : (grow (align cb.cursor ty.align + ty.size) cb.cursor cb.storage).length
        = growSize (align cb.cursor ty.align + ty.size) :=
      grow_length _ _ _ hcur_len (by omega)
    refine ⟨⟨?_, ?_, ?_, ?_, ?_⟩, rfl, by simpa using hcur_o.trans (Nat.le_add_right _ _),
      rfl, rfl, le_max_left _ _, ?_⟩
    · rw [writeBytes_length _ _ _ (by rw [hgl]; omega)]
      exact hgl
    · exact hstg
    · exact Or.inr ⟨growSize_isPowerOfTwo _, growSize_ge _⟩
    · exact lt_of_lt_of_le hinv.alignPos (le_max_left _ _)
    · intro c hc
      rcases List.mem_append.mp hc with hc | hc
      · obtain ⟨h1, h2, h3, h4⟩ := hinv.comps c hc
        exact ⟨h1, h2, h3.trans (le_max_left _ _),
          h4.trans (hcur_o.trans (Nat.le_add_right _ _))⟩
      · simp only [List.mem_singleton] at hc
        subst hc
        exact ⟨hapos, align_mod _ _, le_max_right _ _, le_refl _⟩
    · intro j hj
      rw [writeBytes_getElem_lt _ _ _ _ (by omega) (by rw [hgl]; omega)]
      exact grow_getElem_lt _ _ _ _ hj hcur_len
  · rw [add_inner_eq_neg cb bytes ty hg]
    push_neg at hg
    obtain ⟨hg1, hg2⟩ := hg
    have hole : align cb.cursor ty.align ≤ cb.storage.length := by
      rw [hinv.sizeEq]; omega
    refine ⟨⟨?_, ?_, hinv.sizeOk, hinv.alignPos, ?_⟩, rfl,
      by simpa using hcur_o.trans (Nat.le_add_right _ _), rfl, rfl, le_refl _, ?_⟩
    · rw [writeBytes_length _ _ _ (by rw [hinv.sizeEq]; omega)]
      exact hinv.sizeEq
    · exact hg1
    · intro c hc
      rcases List.mem_append.mp hc with hc | hc
      · obtain ⟨h1, h2, h3, h4⟩ := hinv.comps c hc
        exact ⟨h1, h2, h3, h4.trans (hcur_o.trans (Nat.le_add_right _ _))⟩
      · simp only [List.mem_singleton] at hc
        subst hc
        exact ⟨hapos, align_mod _ _, hg2, le_refl _⟩
    · intro j hj
      exact writeBytes_getElem_lt _ _ _ _ (by omega) hole

theorem recordBundle_spec (cb : CommandBuffer) (b : DynBundle)
    (hinv : ArenaInv cb) (hb : ValidBundle b) :
    ArenaInv (cb.recordBundle b)
    ∧ (∃ tail, (cb.recordBundle b).components = cb.components ++ tail)
    ∧ cb.cursor ≤ (cb.recordBundle b).cursor
    ∧ (cb.recordBundle b).cmds = cb.cmds
    ∧ (cb.recordBundle b).ids = cb.ids
    ∧ cb.layoutAlign ≤ (cb.recordBundle b).layoutAlign
    ∧ (∀ j, j < cb.cursor →
        (cb.recordBundle b).storage[j]? = cb.storage[j]?) := by
  induction b generalizing cb with
  | nil =>
    exact ⟨hinv, ⟨[], (List.append_nil _).symm⟩, le_refl _, rfl, rfl, le_refl _,
      fun j _ => rfl⟩
  | cons p rest ih =>
    have hrec : cb.recordBundle (p :: rest) = (cb.add_inner p.1 p.2).recordBundle rest := rfl
    have hv : ValidComp p := hb p (List.mem_cons_self _ _)
    have hb' : ValidBundle rest := fun q hq => hb q (List.mem_cons_of_mem _ hq)
    obtain ⟨A1, A2, A3, A4, A5, A6, A7⟩ := add_inner_spec cb p.1 p.2 hinv hv
    obtain ⟨I1, ⟨tail, htail⟩, I3, I4, I5, I6, I7⟩ :=
      ih (cb.add_inner p.1 p.2) A1 hb'
    rw [hrec]
    refine ⟨I1, ⟨ComponentInfo.mk p.2 (align cb.cursor p.2.align) :: tail, ?_⟩,
      le_trans A3 I3, I4.trans A4, I5.trans A5, le_trans A6 I6, ?_⟩
    · rw [htail, A2, List.append_assoc]
      rfl
    · intro j hj
      rw [I7 j (lt_of_lt_of_le hj A3)]
      exact A7 j hj

theorem tiles_le (rs : List (Nat × Nat)) (lo hi : Nat)
    (h : tiles rs lo hi = true) : lo ≤ hi := by
  induction rs generalizing lo with
  | nil =>
    simp only [tiles, beq_iff_eq] at h
    omega
  | cons r rest ih =>
    simp only [tiles, Bool.and_eq_true, beq_iff_eq, decide_eq_true_eq] at h
    have := ih r.2 h.2
    omega

theorem tiles_mem (rs : List (Nat × Nat)) (lo hi : Nat)
    (h : tiles rs lo hi = true) (a b : Nat) (hm : (a, b) ∈ rs) :
    lo ≤ a ∧ a ≤ b ∧ b ≤ hi := by
  induction rs generalizing lo with
  | nil => simp at hm
  | cons r rest ih =>
    simp only [tiles, Bool.and_eq_true, beq_iff_eq, decide_eq_true_eq] at h
    obtain ⟨⟨h1, h2⟩, h3⟩ := h
    rcases List.mem_cons.mp hm with hm | hm
    · have hrest := tiles_le rest r.2 hi h3
      rw [← hm] at h1 h2
      simp only at h1 h2
      rw [← hm] at hrest
      simp only at hrest
      omega
    · have := ih r.2 h3 hm
      omega

theorem tiles_append_one (rs : List (Nat × Nat)) (lo mid hi : Nat)
    (h : tiles rs lo mid = true) (hmh : mid ≤ hi) :
    tiles (rs ++ [(mid, hi)]) lo hi = true := by
  induction rs generalizing lo with
  | nil =>
    simp only [tiles, beq_iff_eq] at h
    subst h
    simp [tiles, hmh]
  | cons r rest ih =>
    simp only [tiles, Bool.and_eq_true, beq_iff_eq, decide_eq_true_eq] at h
    obtain ⟨⟨h1, h2⟩, h3⟩ := h
    simp only [List.cons_append, tiles, Bool.and_eq_true, beq_iff_eq,
      decide_eq_true_eq]
    exact ⟨⟨h1, h2⟩, ih r.2 h3⟩

theorem rangesOf_append (c1 c2 : List Cmd) :
    rangesOf (c1 ++ c2) = rangesOf c1 ++ rangesOf c2 :=
  List.filterMap_append _ _ _

theorem slice_of_append_front (cb cb' : CommandBuffer) (tail : List ComponentInfo)
    (hc : cb'.components = cb.components ++ tail) (a b : Nat)
    (hb : b ≤ cb.components.length) : slice cb' a b = slice cb a b := by
  unfold slice
  rw [hc]
  by_cases ha : a ≤ cb.components.length
  · rw [List.drop_append_of_le_length ha]
    rw [List.take_append_of_le_length (by simp [List.length_drop]; omega)]
  · have hba : b - a = 0 := by omega
    rw [hba]
    simp

theorem slice_of_append_suffix (cb cb' : CommandBuffer) (tail : List ComponentInfo)
    (hc : cb'.components = cb.components ++ tail) :
    slice cb' cb.components.length (cb.components.length + tail.length) = tail := by
  unfold slice
  rw [hc, List.drop_left, Nat.add_sub_cancel_left, List.take_length]

theorem insert_shape (cb : CommandBuffer) (e : Entity) (b : DynBundle)
    (hinv : ArenaInv cb) (hb : ValidBundle b) :
    ∃ tail : List ComponentInfo,
      (cb.insert e b).components =
          cb.components ++ List.insertionSort ComponentInfo.le tail
      ∧ (cb.insert e b).cmds = cb.cmds ++
          [Cmd.spawnOrInsert (some e) cb.components.length
            (cb.components.length + (List.insertionSort ComponentInfo.le tail).length)]
      ∧ ArenaInv (cb.insert e b)
      ∧ (cb.insert e b).ids = cb.ids
      ∧ (cb.insert e b).storage = (cb.recordBundle b).storage
      ∧ (cb.insert e b).cursor = (cb.recordBundle b).cursor
      ∧ (cb.insert e b).layoutSize = (cb.recordBundle b).layoutSize
      ∧ (cb.insert e b).layoutAlign = (cb.recordBundle b).layoutAlign
      ∧ cb.cursor ≤ (cb.insert e b).cursor
      ∧ (∀ j, j < cb.cursor → (cb.insert e b).storage[j]? = cb.storage[j]?) := by
  obtain ⟨Ainv, ⟨tail, htail⟩, hcur, hcmds, hids, hal, hst⟩ :=
    recordBundle_spec cb b hinv hb
  have htake : (cb.recordBundle b).components.take cb.components.length =
      cb.components := by rw [htail]; exact List.take_left _ _
  have hdrop : (cb.recordBundle b).components.drop cb.components.length = tail := by
    rw [htail]; exact List.drop_left _ _
  have hins : cb.insert e b =
      { cb.recordBundle b with
        components := cb.components ++ List.insertionSort ComponentInfo.le tail,
        cmds := (cb.recordBundle b).cmds ++
          [Cmd.spawnOrInsert (some e) cb.components.length
            (cb.components ++ List.insertionSort ComponentInfo.le tail).length] } := by
    simp only [CommandBuffer.insert, htake, hdrop]
  refine ⟨tail, ?_, ?_, ?_, ?_, ?_, ?_, ?_, ?_, ?_, ?_⟩
  · rw [hins]
  · rw [hins]
    simp only [hcmds, List.length_append]
  · have hperm : ((cb.insert e b).components).Perm ((cb.recordBundle b).components) := by
      rw [hins, htail]
      exact (List.perm_insertionSort ComponentInfo.le tail).append_left cb.components
    rw [hins]
    exact ⟨Ainv.sizeEq, Ainv.cursorLe, Ainv.sizeOk, Ainv.alignPos,
      fun c hc => Ainv.comps c (by
        have := hperm.mem_iff (a := c)
        rw [hins] at this
        rw [htail]
        rw [htail] at this
        exact this.mp hc)⟩
  · rw [hins]; exact hids
  · rw [hins]
  · rw [hins]
  · rw [hins]
  · rw [hins]
  · rw [hins]; exact hcur
  · intro j hj
    rw [hins]
    exact hst j hj

theorem spawn_shape (cb : CommandBuffer) (b : DynBundle)
    (hinv : ArenaInv cb) (hb : ValidBundle b) :
    ∃ tail : List ComponentInfo,
      (cb.spawn b).components =
          cb.components ++ List.insertionSort ComponentInfo.le tail
      ∧ (cb.spawn b).cmds = cb.cmds ++
          [Cmd.spawnOrInsert none cb.components.length
            (cb.components.length + (List.insertionSort ComponentInfo.le tail).length)]
      ∧ ArenaInv (cb.spawn b)
      ∧ (cb.spawn b).ids = cb.ids
      ∧ cb.cursor ≤ (cb.spawn b).cursor
      ∧ (∀ j, j < cb.cursor → (cb.spawn b).storage[j]? = cb.storage[j]?) := by
  obtain ⟨Ainv, ⟨tail, htail⟩, hcur, hcmds, hids, hal, hst⟩ :=
    recordBundle_spec cb b hinv hb
  have htake : (cb.recordBundle b).components.take cb.components.length =
      cb.components := by rw [htail]; exact List.take_left _ _
  have hdrop : (cb.recordBundle b).components.drop cb.components.length = tail := by
    rw [htail]; exact List.drop_left _ _
  have hins : cb.spawn b =
      { cb.recordBundle b with
        components := cb.components ++ List.insertionSort ComponentInfo.le tail,
        cmds := (cb.recordBundle b).cmds ++
          [Cmd.spawnOrInsert none cb.components.length
            (cb.components ++ List.insertionSort ComponentInfo.le tail).length] } := by
    simp only [CommandBuffer.spawn, htake, hdrop]
  refine ⟨tail, ?_, ?_, ?_, ?_, ?_, ?_⟩
  · rw [hins]
  · rw [hins]
    simp only [hcmds, List.length_append]
  · have hperm : ((cb.spawn b).components).Perm ((cb.recordBundle b).components) := by
      rw [hins, htail]
      exact (List.perm_insertionSort ComponentInfo.le tail).append_left cb.components
    rw [hins]
    exact ⟨Ainv.sizeEq, Ainv.cursorLe, Ainv.sizeOk, Ainv.alignPos,
      fun c hc => Ainv.comps c (by
        have := hperm.mem_iff (a := c)
        rw [hins] at this
        rw [htail]
        rw [htail] at this
        exact this.mp hc)⟩
  · rw [hins]; exact hids
  · rw [hins]; exact hcur
  · intro j hj
    rw [hins]
    exact hst j hj

theorem inv_insert (cb : CommandBuffer) (e : Entity) (b : DynBundle)
    (h : Inv cb) (hb : ValidBundle b) : Inv (cb.insert e b) := by
  obtain ⟨tail, hcomp, hcmds, ainv, hids, hstor, hcur, hsz, hla, hle, hpres⟩ :=
    insert_shape cb e b h.toArenaInv hb
  refine ⟨ainv, ?_, ?_⟩
  · rw [hcmds, hcomp, rangesOf_append]
    simp only [rangesOf, List.filterMap_cons, List.filterMap_nil, List.length_append]
    exact tiles_append_one _ _ _ _ h.tiling (Nat.le_add_right _ _)
  · intro a b' hmem
    rw [hcmds, rangesOf_append] at hmem
    rcases List.mem_append.mp hmem with hmem | hmem
    · have hbd := tiles_mem _ _ _ h.tiling a b' hmem
      rw [slice_of_append_front cb _ _ hcomp a b' hbd.2.2]
      exact h.sortedRanges a b' hmem
    · simp only [rangesOf, List.filterMap_cons, List.filterMap_nil,
        List.mem_singleton, Prod.mk.injEq] at hmem
      obtain ⟨ha, hb'⟩ := hmem
      subst ha; subst hb'
      rw [slice_of_append_suffix cb _ _ hcomp]
      exact List.sorted_insertionSort ComponentInfo.le tail

theorem inv_spawn (cb : CommandBuffer) (b : DynBundle)
    (h : Inv cb) (hb : ValidBundle b) : Inv (cb.spawn b) := by
  obtain ⟨tail, hcomp, hcmds, ainv, hids, hle, hpres⟩ :=
    spawn_shape cb b h.toArenaInv hb
  refine ⟨ainv, ?_, ?_⟩
  · rw [hcmds, hcomp, rangesOf_append]
    simp only [rangesOf, List.filterMap_cons, List.filterMap_nil, List.length_append]
    exact tiles_append_one _ _ _ _ h.tiling (Nat.le_add_right _ _)
  · intro a b' hmem
    rw [hcmds, rangesOf_append] at hmem
    rcases List.mem_append.mp hmem with hmem | hmem
    · have hbd := tiles_mem _ _ _ h.tiling a b' hmem
      rw [slice_of_append_front cb _ _ hcomp a b' hbd.2.2]
      exact h.sortedRanges a b' hmem
    · simp only [rangesOf, List.filterMap_cons, List.filterMap_nil,
        List.mem_singleton, Prod.mk.injEq] at hmem
      obtain ⟨ha, hb'⟩ := hmem
      subst ha; subst hb'
      rw [slice_of_append_suffix cb _ _ hcomp]
      exact List.sorted_insertionSort ComponentInfo.le tail

theorem inv_remove (cb : CommandBuffer) (tys : List Nat) (e : Entity)
    (h : Inv cb) : Inv (cb.remove tys e) := by
  refine ⟨⟨h.sizeEq, h.cursorLe, h.sizeOk, h.alignPos, h.comps⟩, ?_, ?_⟩
  · show tiles (rangesOf (cb.cmds ++ [Cmd.remove tys e])) 0 _ = true
    rw [rangesOf_append]
    simp only [rangesOf, List.filterMap_cons, List.filterMap_nil, List.append_nil]
    exact h.tiling
  · intro a b hmem
    show List.Sorted ComponentInfo.le (slice cb a b)
    apply h.sortedRanges
    revert hmem
    show (a, b) ∈ rangesOf (cb.cmds ++ [Cmd.remove tys e]) → _
    rw [rangesOf_append]
    simp only [rangesOf, List.filterMap_cons, List.filterMap_nil, List.append_nil]
    exact id

theorem inv_despawn (cb : CommandBuffer) (e : Entity)
    (h : Inv cb) : Inv (cb.despawn e) := by
  refine ⟨⟨h.sizeEq, h.cursorLe, h.sizeOk, h.alignPos, h.comps⟩, ?_, ?_⟩
  · show tiles (rangesOf (cb.cmds ++ [Cmd.despawn e])) 0 _ = true
    rw [rangesOf_append]
    simp only [rangesOf, List.filterMap_cons, List.filterMap_nil, List.append_nil]
    exact h.tiling
  · intro a b hmem
    show List.Sorted ComponentInfo.le (slice cb a b)
    apply h.sortedRanges
    revert hmem
    show (a, b) ∈ rangesOf (cb.cmds ++ [Cmd.despawn e]) → _
    rw [rangesOf_append]
    simp only [rangesOf, List.filterMap_cons, List.filterMap_nil, List.append_nil]
    exact id

theorem inv_cleared (cb : CommandBuffer) (h : Inv cb) : Inv cb.clear.1 := by
  refine ⟨⟨h.sizeEq, Nat.zero_le _, h.sizeOk, h.alignPos, ?_⟩, ?_, ?_⟩
  · intro c hc
    simp only [CommandBuffer.clear, List.not_mem_nil] at hc
  · rfl
  · intro a b hmem
    simp only [CommandBuffer.clear, rangesOf, List.filterMap_nil,
      List.not_mem_nil] at hmem

theorem inv_run (cb : CommandBuffer) (fr : Frame) (h : Inv cb) :
    Inv (cb.run_on fr).buffer := by
  refine ⟨⟨h.sizeEq, Nat.zero_le _, h.sizeOk, h.alignPos, ?_⟩, ?_, ?_⟩
  · intro c hc
    simp only [CommandBuffer.run_on, CommandBuffer.clear, List.not_mem_nil] at hc
  · rfl
  · intro a b hmem
    simp only [CommandBuffer.run_on, CommandBuffer.clear, rangesOf,
      List.filterMap_nil, List.not_mem_nil] at hmem

theorem inv_new : Inv CommandBuffer.new := by
  refine ⟨⟨rfl, le_refl _, Or.inl rfl, by decide, ?_⟩, rfl, ?_⟩
  · intro c hc
    simp only [CommandBuffer.new, List.not_mem_nil] at hc
  · intro a b hmem
    simp only [CommandBuffer.new, rangesOf, List.filterMap_nil,
      List.not_mem_nil] at hmem

theorem reachable_inv (cb : CommandBuffer) (h : Reachable cb) : Inv cb := by
  induction h with
  | new => exact inv_new
  | insert cb e b hb _ ih => exact inv_insert cb e b ih hb
  | spawn cb b hb _ ih => exact inv_spawn cb b ih hb
  | remove cb tys e _ ih => exact inv_remove cb tys e ih
  | despawn cb e _ ih => exact inv_despawn cb e ih
  | run cb fr _ ih => exact inv_run cb fr ih
  | clear cb _ ih => exact inv_cleared cb ih

theorem validAB : ValidBundle bunAB := by
  intro p hp
  simp only [bunAB, List.mem_cons, List.not_mem_nil, or_false] at hp
  rcases hp with h | h
  · subst h; exact ⟨rfl, 2, rfl⟩
  · subst h; exact ⟨rfl, 0, rfl⟩

theorem validC : ValidBundle bunC := by
  intro p hp
  simp only [bunC, List.mem_cons, List.not_mem_nil, or_false] at hp
  subst hp
  exact ⟨rfl, 3, rfl⟩

theorem reach_cbEx : Reachable cbEx :=
  Reachable.insert _ entDead bunC validC
    (Reachable.insert _ entLive bunAB validAB Reachable.new)

/-- C1: `run_on` replays the recorded commands in exactly record order,
invoking one frame operation per recorded command — the `i`-th operation of the
replay is the operation of the `i`-th recorded command. -/
theorem run_on_replays_in_record_order (cb : CommandBuffer) (fr : Frame) :
    (cb.run_on fr).ops = cb.cmds.map (cmdOp cb) := by
  simp only [CommandBuffer.run_on]
  exact runCmds_ops cb fr cb.cmds

/-- C4: after `run_on` the buffer is logically empty — no commands, no
component records, empty scratch ids, cursor 0 — while the arena allocation
(storage bytes, layout size, layout alignment) is exactly what it was before
the call. -/
theorem run_on_leaves_buffer_empty (cb : CommandBuffer) (fr : Frame) :
    ((cb.run_on fr).buffer.cmds = [] ∧ (cb.run_on fr).buffer.components = []
      ∧ (cb.run_on fr).buffer.ids = [] ∧ (cb.run_on fr).buffer.cursor = 0)
    ∧ (cb.run_on fr).buffer.storage = cb.storage
    ∧ (cb.run_on fr).buffer.layoutSize = cb.layoutSize
    ∧ (cb.run_on fr).buffer.layoutAlign = cb.layoutAlign :=
  ⟨⟨rfl, rfl, rfl, rfl⟩, rfl, rfl, rfl⟩

/-- C2: when the replay step of `run_on` meets an insert command whose target
handle is no longer live, the frame is left unchanged, no error escapes (the
step still yields its frame operation and result), and the drop thunks of
exactly the command's recorded components run; an insert command whose target
is live consumes its components and appends them to the target entity. -/
theorem insert_dead_target_drops (cb : CommandBuffer) (fr : Frame) (e : Entity)
    (a b : Nat) :
    (fr.contains e = false →
      applyCmd cb fr (Cmd.spawnOrInsert (some e) a b) =
        { frame := fr, op := FrameOp.insertOp e (componentData cb a b),
          consumed := [], dropped := List.range' a (b - a) })
    ∧ (fr.contains e = true →
      (applyCmd cb fr (Cmd.spawnOrInsert (some e) a b)).dropped = []
      ∧ (applyCmd cb fr (Cmd.spawnOrInsert (some e) a b)).consumed =
          List.range' a (b - a)
      ∧ (applyCmd cb fr (Cmd.spawnOrInsert (some e) a b)).frame.componentsOf e =
          fr.componentsOf e ++ componentData cb a b) := by
  constructor
  · intro hdead
    simp only [applyCmd, hdead]
    rfl
  · intro hlive
    simp only [applyCmd, hlive]
    exact ⟨rfl, rfl, componentsOf_insert fr e _ hlive⟩

/-- C6: in any reachable buffer whose arena holds recorded bytes, the
allocation size is a power of two of at least 64, and every size the `grow`
step can choose is a power of two of at least 64. -/
theorem arena_size_power_of_two (cb : CommandBuffer) (h : Reachable cb) :
    (0 < cb.cursor → Nat.isPowerOfTwo cb.layoutSize ∧ 64 ≤ cb.layoutSize)
    ∧ (∀ m : Nat, Nat.isPowerOfTwo (growSize m) ∧ 64 ≤ growSize m) := by
  have hinv := reachable_inv cb h
  refine ⟨?_, fun m => ⟨growSize_isPowerOfTwo m, growSize_ge m⟩⟩
  intro hc
  rcases hinv.sizeOk with h0 | hok
  · exfalso
    have := hinv.cursorLe
    omega
  · exact hok

/-- C7: every component recorded in a reachable buffer sits at an offset that
is a multiple of its type's alignment, and the arena allocation's alignment
bounds every recorded component's alignment from above. -/
theorem components_aligned (cb : CommandBuffer) (h : Reachable cb) :
    ∀ c ∈ cb.components, c.offset % c.ty.align = 0 ∧ c.ty.align ≤ cb.layoutAlign := by
  have hinv := reachable_inv cb h
  intro c hc
  obtain ⟨_, h2, h3, _⟩ := hinv.comps c hc
  exact ⟨h2, h3⟩

/-- C9: recording a further bundle through `insert` (and `insert_one`, which
is insert of the one-component bundle) or `spawn` preserves every previously
recorded component record and all of its stored bytes, including across arena
growth. -/
theorem recording_preserves_previous (cb : CommandBuffer) (h : Reachable cb)
    (e : Entity) (b : DynBundle) (hb : ValidBundle b) :
    PreservesRecorded cb (cb.insert e b) ∧ PreservesRecorded cb (cb.spawn b) := by
  have hinv := reachable_inv cb h
  obtain ⟨tail, hcomp, _, _, _, _, _, _, _, _, hpres⟩ :=
    insert_shape cb e b hinv.toArenaInv hb
  obtain ⟨tail2, hcomp2, _, _, _, _, hpres2⟩ := spawn_shape cb b hinv.toArenaInv hb
  constructor
  · constructor
    · intro i hi
      rw [hcomp]
      exact List.getElem?_append_left hi
    · intro c hc j hj
      obtain ⟨_, _, _, h4⟩ := hinv.comps c hc
      exact hpres (c.offset + j) (by omega)
  · constructor
    · intro i hi
      rw [hcomp2]
      exact List.getElem?_append_left hi
    · intro c hc j hj
      obtain ⟨_, _, _, h4⟩ := hinv.comps c hc
      exact hpres2 (c.offset + j) (by omega)

/-- C10: in a reachable buffer, every recorded `SpawnOrInsert` command's range
of component records is sorted by the `TypeInfo` total order, and the
`RecordedEntity` replayed for it reports ids and type infos of equal length
that agree elementwise. -/
theorem recorded_range_canonical (cb : CommandBuffer) (h : Reachable cb) :
    ∀ (e : Option Entity) (a b : Nat), Cmd.spawnOrInsert e a b ∈ cb.cmds →
      List.Sorted ComponentInfo.le (slice cb a b)
      ∧ RecordedEntity.with_ids cb ⟨a, b⟩ =
          (RecordedEntity.type_info cb ⟨a, b⟩).map TypeInfo.id
      ∧ (RecordedEntity.with_ids cb ⟨a, b⟩).length =
          (RecordedEntity.type_info cb ⟨a, b⟩).length := by
  have hinv := reachable_inv cb h
  intro e a b hmem
  have hr : (a, b) ∈ rangesOf cb.cmds := by
    unfold rangesOf
    exact List.mem_filterMap.mpr ⟨Cmd.spawnOrInsert e a b, hmem, rfl⟩
  refine ⟨hinv.sortedRanges a b hr, ?_, ?_⟩
  · simp only [RecordedEntity.with_ids, RecordedEntity.type_info,
      CommandBuffer.build, List.map_map]
    rfl
  · simp only [RecordedEntity.with_ids, RecordedEntity.type_info,
      CommandBuffer.build, List.length_map]

theorem perm_shuffle (x X y Y : List Nat) :
    ((x ++ X) ++ (y ++ Y)).Perm ((x ++ y) ++ (X ++ Y)) := by
  have h1 : (x ++ X) ++ (y ++ Y) = x ++ ((X ++ y) ++ Y) := by
    simp [List.append_assoc]
  have h2 : (x ++ y) ++ (X ++ Y) = x ++ ((y ++ X) ++ Y) := by
    simp [List.append_assoc]
  rw [h1, h2]
  exact List.Perm.append_left x (List.Perm.append_right Y List.perm_append_comm)

theorem runCmds_events (cb : CommandBuffer) (fr : Frame) (cmds : List Cmd)
    (lo hi : Nat) (h : tiles (rangesOf cmds) lo hi = true) :
    ((runCmds cb fr cmds).2.2.1 ++ (runCmds cb fr cmds).2.2.2).Perm
      (List.range' lo (hi - lo)) := by
  induction cmds generalizing fr lo with
  | nil =>
    simp only [rangesOf, List.filterMap_nil, tiles, beq_iff_eq] at h
    subst h
    simp [runCmds]
  | cons c rest ih =>
    cases c with
    | spawnOrInsert e a b =>
      have hr : rangesOf (Cmd.spawnOrInsert e a b :: rest) =
          (a, b) :: rangesOf rest := rfl
      rw [hr] at h
      simp only [tiles, Bool.and_eq_true, beq_iff_eq, decide_eq_true_eq] at h
      obtain ⟨⟨h1, h2⟩, h3⟩ := h
      subst h1
      have hbhi : b ≤ hi := tiles_le _ _ _ h3
      have ihx := ih (applyCmd cb fr (Cmd.spawnOrInsert e a b)).frame b h3
      have hcd : (applyCmd cb fr (Cmd.spawnOrInsert e a b)).consumed ++
          (applyCmd cb fr (Cmd.spawnOrInsert e a b)).dropped =
          List.range' a (b - a) := by
        cases e with
        | some e' =>
          simp only [applyCmd]
          split <;> simp
        | none => simp [applyCmd]
      have hra : List.range' a (b - a) ++ List.range' b (hi - b) =
          List.range' a (hi - a) := by
        have hx := List.range'_append a (b - a) (hi - b) 1
        rw [one_mul] at hx
        have e1 : a + (b - a) = b := by omega
        have e2 : (hi - b) + (b - a) = hi - a := by omega
        rw [e1, e2] at hx
        exact hx
      show (((applyCmd cb fr (Cmd.spawnOrInsert e a b)).consumed ++ _) ++
        ((applyCmd cb fr (Cmd.spawnOrInsert e a b)).dropped ++ _)).Perm _
      refine (perm_shuffle _ _ _ _).trans ?_
      rw [hcd]
      exact (List.Perm.append_left _ ihx).trans (by rw [hra])
    | remove tys e' =>
      have hr : rangesOf (Cmd.remove tys e' :: rest) = rangesOf rest := rfl
      rw [hr] at h
      have ihx := ih (applyCmd cb fr (Cmd.remove tys e')).frame lo h
      show (((applyCmd cb fr (Cmd.remove tys e')).consumed ++ _) ++
        ((applyCmd cb fr (Cmd.remove tys e')).dropped ++ _)).Perm _
      simpa [applyCmd] using ihx
    | despawn e' =>
      have hr : rangesOf (Cmd.despawn e' :: rest) = rangesOf rest := rfl
      rw [hr] at h
      have ihx := ih (applyCmd cb fr (Cmd.despawn e')).frame lo h
      show (((applyCmd cb fr (Cmd.despawn e')).consumed ++ _) ++
        ((applyCmd cb fr (Cmd.despawn e')).dropped ++ _)).Perm _
      simpa [applyCmd] using ihx

/-- C3: across a replay, every component recorded in a reachable buffer is
either consumed by the frame or dropped via its thunk, each exactly once, and
dropping the buffer afterwards runs no further thunks; dropping the buffer
without a replay runs every recorded component's thunk exactly once; a `clear`
followed by the buffer's own drop also runs each thunk exactly once. -/
theorem drop_thunks_exactly_once (cb : CommandBuffer) (h : Reachable cb)
    (fr : Frame) :
    (((cb.run_on fr).consumed ++ (cb.run_on fr).dropped) ++
        (cb.run_on fr).buffer.dropEvents).Perm
      (List.range cb.components.length)
    ∧ cb.dropEvents.Perm (List.range cb.components.length)
    ∧ (cb.clear.2 ++ cb.clear.1.dropEvents).Perm
        (List.range cb.components.length) := by
  have hinv := reachable_inv cb h
  refine ⟨?_, ?_, ?_⟩
  · have hev := runCmds_events cb fr cb.cmds 0 cb.components.length hinv.tiling
    have hbuf : (cb.run_on fr).buffer.dropEvents = [] := rfl
    have hcons : (cb.run_on fr).consumed = (runCmds cb fr cb.cmds).2.2.1 := rfl
    have hdrop : (cb.run_on fr).dropped =
        (runCmds cb fr cb.cmds).2.2.2 ++ [] := rfl
    rw [hbuf, hcons, hdrop, List.append_nil, List.append_nil]
    rw [List.range_eq_range']
    simpa using hev
  · show (List.range cb.components.length).Perm (List.range cb.components.length)
    exact List.Perm.refl _
  · show (List.range cb.components.length ++ List.range 0).Perm
      (List.range cb.components.length)
    simp

theorem orderedInsert_map {α β : Type} (r : α → α → Prop) (s : β → β → Prop)
    [DecidableRel r] [DecidableRel s] (f : α → β)
    (hf : ∀ a b, s (f a) (f b) ↔ r a b) (a : α) (l : List α) :
    List.orderedInsert s (f a) (l.map f) = (List.orderedInsert r a l).map f := by
  induction l with
  | nil => rfl
  | cons b t ih =>
    simp only [List.map_cons, List.orderedInsert]
    by_cases h : r a b
    · rw [if_pos ((hf a b).mpr h), if_pos h, List.map_cons, List.map_cons]
    · rw [if_neg (fun hs => h ((hf a b).mp hs)), if_neg h, List.map_cons, ih]

theorem insertionSort_map {α β : Type} (r : α → α → Prop) (s : β → β → Prop)
    [DecidableRel r] [DecidableRel s] (f : α → β)
    (hf : ∀ a b, s (f a) (f b) ↔ r a b) (l : List α) :
    List.insertionSort s (l.map f) = (List.insertionSort r l).map f := by
  induction l with
  | nil => rfl
  | cons a t ih =>
    simp only [List.map_cons, List.insertionSort, ih]
    exact orderedInsert_map r s f hf a _

/-- C5: the derived `with_static_ids` hands its callback exactly the ids of
the field types sorted by alignment descending then id ascending; the derived
`with_static_type_info` produces the `TypeInfo`s in the same canonical order
(so the id sequences agree elementwise); and any two field lists that are
permutations of each other — the same types in any declaration order — produce
identical id sequences. -/
theorem with_static_ids_canonical :
    (∀ l : List (Nat × Nat), List.Sorted pairLe (sort_tys l)
        ∧ (sort_tys l).Perm l
        ∧ with_static_ids l = (sort_tys l).map Prod.snd)
    ∧ (∀ tys : List TypeInfo,
        with_static_ids (tys.map key) = (with_static_type_info tys).map TypeInfo.id)
    ∧ (∀ l l' : List (Nat × Nat), l.Perm l' →
        with_static_ids l = with_static_ids l') := by
  refine ⟨fun l => ⟨List.sorted_insertionSort pairLe l,
    List.perm_insertionSort pairLe l, rfl⟩, ?_, ?_⟩
  · intro tys
    unfold with_static_ids sort_tys with_static_type_info
    rw [insertionSort_map TypeInfo.le pairLe key (fun a b => Iff.rfl) tys,
      List.map_map]
    rfl
  · intro l l' hperm
    unfold with_static_ids sort_tys
    have heq : List.insertionSort pairLe l = List.insertionSort pairLe l' :=
      List.eq_of_perm_of_sorted
        ((List.perm_insertionSort pairLe l).trans
          (hperm.trans (List.perm_insertionSort pairLe l').symm))
        (List.sorted_insertionSort pairLe l)
        (List.sorted_insertionSort pairLe l')
    rw [heq]

theorem bundle_get_aux {V : Type} (fields : List TypeInfo)
    (f : TypeInfo → Option V) :
    (∀ vs : List V, Bundle.get fields f = Except.ok vs ↔
        List.Forall₂ (fun t v => f t = some v) fields vs)
    ∧ (∀ e : TypeInfo, Bundle.get fields f = Except.error e →
        f e = none ∧ e ∈ fields)
    ∧ ((∀ t ∈ fields, (f t).isSome) ↔ ∃ vs, Bundle.get fields f = Except.ok vs) := by
  induction fields with
  | nil =>
    refine ⟨?_, ?_, ?_⟩
    · intro vs
      simp only [Bundle.get]
      constructor
      · intro hok
        cases hok
        exact List.Forall₂.nil
      · intro hfa
        rcases hfa
        rfl
    · intro e he
      cases he
    · constructor
      · intro _
        exact ⟨[], rfl⟩
      · intro _ t ht
        cases ht
  | cons t rest ih =>
    obtain ⟨ih1, ih2, ih3⟩ := ih
    cases hft : f t with
    | none =>
      have hget : Bundle.get (t :: rest) f = Except.error t := by
        simp only [Bundle.get, hft]
      refine ⟨?_, ?_, ?_⟩
      · intro vs
        rw [hget]
        constructor
        · intro hok
          cases hok
        · intro hfa
          rcases hfa with _ | ⟨hr, _⟩
          rw [hft] at hr
          cases hr
      · intro e he
        rw [hget] at he
        cases he
        exact ⟨hft, List.mem_cons_self _ _⟩
      · constructor
        · intro hall
          have := hall t (List.mem_cons_self _ _)
          rw [hft] at this
          cases this
        · intro ⟨vs, hvs⟩
          rw [hget] at hvs
          cases hvs
    | some v =>
      cases hrest : Bundle.get rest f with
      | error e2 =>
        have hget : Bundle.get (t :: rest) f = Except.error e2 := by
          simp only [Bundle.get, hft, hrest]
        obtain ⟨he2, hmem⟩ := ih2 e2 hrest
        refine ⟨?_, ?_, ?_⟩
        · intro vs
          rw [hget]
          constructor
          · intro hok
            cases hok
          · intro hfa
            rcases hfa with _ | ⟨hr, htl⟩
            have := (ih1 _).mpr htl
            rw [hrest] at this
            cases this
        · intro e he
          rw [hget] at he
          cases he
          exact ⟨he2, List.mem_cons_of_mem _ hmem⟩
        · constructor
          · intro hall
            have hrest' : ∀ t' ∈ rest, (f t').isSome :=
              fun t' ht' => hall t' (List.mem_cons_of_mem _ ht')
            obtain ⟨vs, hvs⟩ := ih3.mp hrest'
            rw [hrest] at hvs
            cases hvs
          · intro ⟨vs, hvs⟩
            rw [hget] at hvs
            cases hvs
      | ok vs0 =>
        have hget : Bundle.get (t :: rest) f = Except.ok (v :: vs0) := by
          simp only [Bundle.get, hft, hrest]
        refine ⟨?_, ?_, ?_⟩
        · intro vs
          rw [hget]
          constructor
          · intro hok
            cases hok
            exact List.Forall₂.cons hft ((ih1 vs0).mp hrest)
          · intro hfa
            rcases hfa with _ | ⟨hr, htl⟩
            have hv : _ = some v := hft
            rw [hv] at hr
            cases hr
            have := (ih1 _).mpr htl
            rw [hrest] at this
            cases this
            rfl
        · intro e he
          rw [hget] at he
          cases he
        · constructor
          · intro _
            exact ⟨v :: vs0, hget⟩
          · intro _ t' ht'
            rcases List.mem_cons.mp ht' with h' | h'
            · subst h'
              rw [hft]
              rfl
            · have hrest' : ∀ t' ∈ rest, (f t').isSome :=
                ih3.mpr ⟨vs0, hrest⟩
              exact hrest' t' h'

/-- C8: the derived `Bundle::get` returns `Ok` of an instance whose every
field is read from the pointer the lookup returned for that field's type
exactly when the lookup returns a pointer for every field type, and otherwise
returns a `MissingComponent` error identifying a field type for which the
lookup returned none. -/
theorem bundle_get_spec {V : Type} (fields : List TypeInfo)
    (f : TypeInfo → Option V) :
    (∀ vs : List V, Bundle.get fields f = Except.ok vs ↔
        List.Forall₂ (fun t v => f t = some v) fields vs)
    ∧ (∀ e : TypeInfo, Bundle.get fields f = Except.error e →
        f e = none ∧ e ∈ fields)
    ∧ ((∀ t ∈ fields, (f t).isSome) ↔ ∃ vs, Bundle.get fields f = Except.ok vs)
    ∧ ((∃ t ∈ fields, f t = none) →
        ∃ e, Bundle.get fields f = Except.error e ∧ f e = none ∧ e ∈ fields) := by
  obtain ⟨h1, h2, h3⟩ := bundle_get_aux fields f
  refine ⟨h1, h2, h3, ?_⟩
  intro ⟨t, ht, hnone⟩
  cases hg : Bundle.get fields f with
  | ok vs =>
    exfalso
    have hall := h3.mpr ⟨vs, hg⟩
    have := hall t ht
    rw [hnone] at this
    cases this
  | error e =>
    obtain ⟨he, hmem⟩ := h2 e hg
    exact ⟨e, rfl, he, hmem⟩

theorem insert_dead_target_drops_witness :
    frEx.contains entDead = false
    ∧ applyCmd cbEx frEx (Cmd.spawnOrInsert (some entDead) 2 3) =
        { frame := frEx, op := FrameOp.insertOp entDead (componentData cbEx 2 3),
          consumed := [], dropped := List.range' 2 (3 - 2) }
    ∧ frEx.contains entLive = true
    ∧ (applyCmd cbEx frEx
          (Cmd.spawnOrInsert (some entLive) 0 2)).frame.componentsOf entLive =
        frEx.componentsOf entLive ++ componentData cbEx 0 2 :=
  ⟨by decide,
   (insert_dead_target_drops cbEx frEx entDead 2 3).1 (by decide),
   by decide,
   ((insert_dead_target_drops cbEx frEx entLive 0 2).2 (by decide)).2.2⟩

theorem arena_size_power_of_two_witness :
    Reachable cbEx ∧ 0 < cbEx.cursor
    ∧ (Nat.isPowerOfTwo cbEx.layoutSize ∧ 64 ≤ cbEx.layoutSize) :=
  ⟨reach_cbEx, by decide, (arena_size_power_of_two cbEx reach_cbEx).1 (by decide)⟩

theorem components_aligned_witness :
    Reachable cbEx ∧ ComponentInfo.mk tyA 0 ∈ cbEx.components
    ∧ ((ComponentInfo.mk tyA 0).offset % (ComponentInfo.mk tyA 0).ty.align = 0
        ∧ (ComponentInfo.mk tyA 0).ty.align ≤ cbEx.layoutAlign) :=
  ⟨reach_cbEx, by decide,
   components_aligned cbEx reach_cbEx (ComponentInfo.mk tyA 0) (by decide)⟩

theorem recording_preserves_previous_witness :
    Reachable cbEx ∧ ValidBundle bunC
    ∧ (PreservesRecorded cbEx (cbEx.insert entLive bunC)
        ∧ PreservesRecorded cbEx (cbEx.spawn bunC)) :=
  ⟨reach_cbEx, validC,
   recording_preserves_previous cbEx reach_cbEx entLive bunC validC⟩

theorem recorded_range_canonical_witness :
    Reachable cbEx ∧ Cmd.spawnOrInsert (some entLive) 0 2 ∈ cbEx.cmds
    ∧ (List.Sorted ComponentInfo.le (slice cbEx 0 2)
        ∧ RecordedEntity.with_ids cbEx ⟨0, 2⟩ =
            (RecordedEntity.type_info cbEx ⟨0, 2⟩).map TypeInfo.id
        ∧ (RecordedEntity.with_ids cbEx ⟨0, 2⟩).length =
            (RecordedEntity.type_info cbEx ⟨0, 2⟩).length) :=
  ⟨reach_cbEx, by decide,
   recorded_range_canonical cbEx reach_cbEx (some entLive) 0 2 (by decide)⟩

theorem drop_thunks_exactly_once_witness :
    Reachable cbEx
    ∧ ((((cbEx.run_on frEx).consumed ++ (cbEx.run_on frEx).dropped) ++
          (cbEx.run_on frEx).buffer.dropEvents).Perm
        (List.range cbEx.components.length)
      ∧ cbEx.dropEvents.Perm (List.range cbEx.components.length)
      ∧ (cbEx.clear.2 ++ cbEx.clear.1.dropEvents).Perm
          (List.range cbEx.components.length)) :=
  ⟨reach_cbEx, drop_thunks_exactly_once cbEx reach_cbEx frEx⟩

theorem with_static_ids_canonical_witness :
    ([(1, 20), (4, 21)] : List (Nat × Nat)).Perm [(4, 21), (1, 20)]
    ∧ with_static_ids [(1, 20), (4, 21)] = with_static_ids [(4, 21), (1, 20)] :=
  ⟨by decide, with_static_ids_canonical.2.2 _ _ (by decide)⟩

theorem bundle_get_spec_witness :
    Bundle.get [tyA] lookupNone = Except.error tyA
    ∧ (lookupNone tyA = none ∧ tyA ∈ [tyA]) :=
  ⟨rfl, (bundle_get_spec [tyA] lookupNone).2.1 tyA rfl⟩

end MossHecs
